import Mathlib

/-!
Verification of the drem address-resolution pipeline
(`src/drem/transform/m_and_r.py`, `src/drem/utilities/gni.py`,
`src/drem/transform/gni.py`).

Tables are shallowly embedded as a column-name list, an integer row-index
list, and a list of rows (lists of cell values), mirroring a pandas
DataFrame.  Cell values are an inductive `Value` type: `null` stands for
NaN/None, `num` for a numeric cell, `str` for a string cell, `dict` for a
parsed-address mapping (label to fragment, insertion ordered), and `pairs`
for the raw pypostal parse output, a sequence of (fragment, label) pairs.

Fallible pandas operations return `Except PdError Table`; `PdError`
distinguishes the icontract `@require` violation (`violation`), pandas
KeyError, MergeError, ValueError, TypeError and IndexError kinds, which is
what the error-handling claims are about.
-/

namespace Drem

/-- A pandas cell value.  `null` models NaN/None. -/
inductive Value where
  | null : Value
  | num : Int → Value
  | str : String → Value
  | dict : List (String × String) → Value
  | pairs : List (String × String) → Value
  deriving DecidableEq, Repr

/-- A pandas DataFrame: column names, integer row labels, and rows. -/
structure Table where
  columns : List String
  index : List Int
  rows : List (List Value)
  deriving DecidableEq, Repr

/-- Position of the first column named `d`, as pandas column lookup does. -/
def colIndex : List String → String → Option Nat
  | [], _ => none
  | c :: cs, d => if c = d then some 0 else (colIndex cs d).map (· + 1)

/-- The value of `row` at column `c` (null when the column is absent). -/
def valAt (cols : List String) (row : List Value) (c : String) : Value :=
  match colIndex cols c with
  | some i => row.getD i .null
  | none => .null

/-- `df[c]` as a list of cell values; `none` when the column is missing. -/
def getCol (t : Table) (c : String) : Option (List Value) :=
  (colIndex t.columns c).map fun i => t.rows.map fun r => r.getD i .null

/-- `df[c] = vs` with `vs` positionally aligned (same index as `df`):
overwrites column `c` when present, otherwise appends it on the right. -/
def setColPositional (t : Table) (c : String) (vs : List Value) : Table :=
  match colIndex t.columns c with
  | some i => ⟨t.columns, t.index, List.zipWith (fun r v => r.set i v) t.rows vs⟩
  | none => ⟨t.columns ++ [c], t.index, List.zipWith (fun r v => r ++ [v]) t.rows vs⟩

/-- Well-formedness: one index label per row, rows match the schema width. -/
def Table.WF (t : Table) : Prop :=
  t.index.length = t.rows.length ∧ ∀ r ∈ t.rows, r.length = t.columns.length

/-- Error kinds surfaced by the embedded pandas/icontract operations. -/
inductive PdError where
  | violation
  | keyError (k : String)
  | mergeError
  | valueError
  | typeError
  | indexError
  | invalidIndex
  deriving DecidableEq, Repr

/-- Total projection out of `Except`, giving the empty table on error. -/
def extractTable : Except PdError Table → Table
  | .ok t => t
  | .error _ => ⟨[], [], []⟩

/-- Characters matched by the regex class backslash-s used in
`_strip_whitespace`. -/
def isWsChar (ch : Char) : Bool :=
  ch = ' ' || ch = '\t' || ch = '\n' || ch = '\r' || ch = '\x0b' || ch = '\x0c'

/-- Replace every maximal run of whitespace by a single space, as
`re.sub` of a one-or-more whitespace pattern with a space does.
The flag records whether the previous character was whitespace. -/
def collapseWsGo : Bool → List Char → List Char
  | _, [] => []
  | prevWs, ch :: rest =>
    if isWsChar ch then
      if prevWs then collapseWsGo true rest else ' ' :: collapseWsGo true rest
    else ch :: collapseWsGo false rest

/-- `series.str.replace` of a one-or-more whitespace pattern with `" "`. -/
def collapseWs (s : String) : String := ⟨collapseWsGo false s.data⟩

/-- Python `str(...)` as applied by `.astype(str)`: NaN renders as the
literal string "nan".  The dict/pairs renderings are placeholders: the
pipeline never string-casts those columns. -/
def pyStr : Value → String
  | .null => "nan"
  | .num n => toString n
  | .str s => s
  | .dict _ => "<dict>"
  | .pairs _ => "<pairs>"

/-- `_strip_whitespace` (gni.py): `df[result] = df[target].astype(str)
.str.replace(ws-run, " ")`.  No `@require` guard: a missing `target`
column surfaces as a pandas KeyError from the column lookup. -/
def strip_whitespace (t : Table) (target result : String) : Except PdError Table :=
  match getCol t target with
  | none => .error (.keyError target)
  | some vs => .ok (setColPositional t result (vs.map fun v => Value.str (collapseWs (pyStr v))))

/-- State of the caller's `df` binding after `_strip_whitespace` returns:
the function assigns into `df` in place and returns the same object, so on
success the input aliases the output; on the KeyError path the lookup
happens before any assignment and `df` is untouched. -/
def strip_whitespace_input_after (t : Table) (target result : String) : Table :=
  match strip_whitespace t target result with
  | .ok u => u
  | .error _ => t

/-- `True` on cells a string join accepts. -/
def isStrVal : Value → Bool
  | .str _ => true
  | _ => false

def strOf : Value → String
  | .str s => s
  | _ => ""

/-- `_aggregate_columns` (m_and_r.py): guarded by an icontract subset
require; `df[to_column] = df[column_names].agg(", ".join, axis="columns")`.
The string join raises a TypeError on a non-string cell. -/
def aggregate_columns (t : Table) (column_names : List String) (to_column : String) :
    Except PdError Table :=
  if ∀ c ∈ column_names, c ∈ t.columns then
    if ∀ r ∈ t.rows, ∀ c ∈ column_names, isStrVal (valAt t.columns r c) = true then
      .ok (setColPositional t to_column (t.rows.map fun r =>
        Value.str (String.intercalate ", " (column_names.map fun c => strOf (valAt t.columns r c)))))
    else .error .typeError
  else .error .violation

/-- `_rename_columns`: `df.rename(columns=mapping)`, a fresh frame. -/
def rename_columns (t : Table) (mapping : List (String × String)) : Except PdError Table :=
  if ∀ p ∈ mapping, p.1 ∈ t.columns then
    .ok ⟨t.columns.map fun c => (((mapping.find? fun p => decide (p.1 = c)).map Prod.snd).getD c),
         t.index, t.rows⟩
  else .error .violation

/-- `_extract_columns`: `df.loc[:, column_names]`, a fresh frame. -/
def extract_columns (t : Table) (column_names : List String) : Except PdError Table :=
  if ∀ c ∈ column_names, c ∈ t.columns then
    .ok ⟨column_names, t.index, t.rows.map fun r => column_names.map (valAt t.columns r)⟩
  else .error .violation

/-- Cell transform of `_standardise_addresses`: `expand_address(cell)[0]`.
Modelled from the spec: `expand_address` is the external pypostal
capability (free text to a sequence of candidate strings) of which the
pipeline takes the first; an empty candidate list raises an IndexError and
a non-string cell a TypeError. -/
def expandCell (expandFn : String → List String) : Value → Except PdError Value
  | .str s =>
    match expandFn s with
    | [] => .error .indexError
    | c :: _ => .ok (.str c)
  | _ => .error .typeError

/-- `_standardise_addresses`: `addresses[to_column] =
addresses[on_column].apply(lambda cell: expand_address(cell)[0])`, guarded
by an icontract membership require. -/
def standardise_addresses (expandFn : String → List String) (t : Table)
    (on_column to_column : String) : Except PdError Table :=
  if on_column ∈ t.columns then
    match getCol t on_column with
    | none => .error (.keyError on_column)
    | some vs =>
      match vs.mapM (expandCell expandFn) with
      | .error e => .error e
      | .ok ws => .ok (setColPositional t to_column ws)
  else .error .violation

/-- `_dedupe_column`: `df[result] = group_similar_strings(df[target],
min_similarity=0.95)`.  Modelled from the spec: `group_similar_strings` is
the external string_grouper capability — same length and order as its
input, each output the representative spelling of that input's cluster —
passed in here as `groupFn`. -/
def dedupe_column (groupFn : List Value → List Value) (t : Table)
    (target result : String) : Except PdError Table :=
  if target ∈ t.columns then
    match getCol t target with
    | none => .error (.keyError target)
    | some vs => .ok (setColPositional t result (groupFn vs))
  else .error .violation

/-- Group-by key of a row: its values at the `on` columns. -/
def rowKey (cols : List String) (onCols : List String) (row : List Value) : List Value :=
  onCols.map (valAt cols row)

/-- Keep the first row of each key, as `drop_duplicates(subset=on)` does
with its default `keep="first"`; `seen` holds the keys already emitted. -/
def dedupPairs (K : List Value → List Value) :
    List (Int × List Value) → List (List Value) → List (Int × List Value)
  | [], _ => []
  | p :: rest, seen =>
    if K p.2 ∈ seen then dedupPairs K rest seen
    else p :: dedupPairs K rest (K p.2 :: seen)

/-- `_drop_duplicates`: `df.drop_duplicates(subset=on)` behind an
icontract subset require; kept rows retain their index labels. -/
def drop_duplicates (t : Table) (onCols : List String) : Except PdError Table :=
  if ∀ c ∈ onCols, c ∈ t.columns then
    .ok ⟨t.columns,
         (dedupPairs (rowKey t.columns onCols) (t.index.zip t.rows) []).map Prod.fst,
         (dedupPairs (rowKey t.columns onCols) (t.index.zip t.rows) []).map Prod.snd⟩
  else .error .violation

def isNumericVal : Value → Bool
  | .null => true
  | .num _ => true
  | _ => false

/-- Numeric reading of a cell in a sum: NaN counts as 0. -/
def numOf : Value → Int
  | .num q => q
  | _ => 0

def keyHasNull (k : List Value) : Bool :=
  k.any fun v => match v with | .null => true | _ => false

/-- Columns the `numeric_only` grouped sum keeps: non-key columns of
numeric dtype (every cell a number or NaN). -/
def nonKeyNumericCols (t : Table) (onCols : List String) : List String :=
  t.columns.filter fun c => decide (¬ c ∈ onCols) && ((getCol t c).getD []).all isNumericVal

/-- First-occurrence deduplication; `seen` holds already-kept elements. -/
def firstDedup {α : Type} [DecidableEq α] : List α → List α → List α
  | [], _ => []
  | x :: xs, seen => if x ∈ seen then firstDedup xs seen else x :: firstDedup xs (x :: seen)

def valueRank : Value → Nat
  | .null => 0
  | .num _ => 1
  | .str _ => 2
  | .dict _ => 3
  | .pairs _ => 4

/-- Code-point lexicographic comparison, Python string ordering. -/
def charListLt : List Char → List Char → Bool
  | [], [] => false
  | [], _ :: _ => true
  | _ :: _, [] => false
  | a :: as, b :: bs => decide (a < b) || (decide (a = b) && charListLt as bs)

/-- Ordering used to model the sorted group keys of `groupby(sort=True)`. -/
def valueLt (a b : Value) : Bool :=
  match a, b with
  | .num x, .num y => decide (x < y)
  | .str x, .str y => charListLt x.data y.data
  | _, _ => decide (valueRank a < valueRank b)

def keyLt : List Value → List Value → Bool
  | [], [] => false
  | [], _ :: _ => true
  | _ :: _, [] => false
  | a :: as, b :: bs => valueLt a b || (if a = b then keyLt as bs else false)

def insertKeySorted (x : List Value) : List (List Value) → List (List Value)
  | [] => [x]
  | y :: ys => if keyLt x y then x :: y :: ys else y :: insertKeySorted x ys

def sortKeys (ks : List (List Value)) : List (List Value) := ks.foldr insertKeySorted []

def intRange (n : Nat) : List Int := (List.range n).map Int.ofNat

def groupSumRows (cols : List String) (onCols : List String) (c : String)
    (rows : List (List Value)) (k : List Value) : Int :=
  ((rows.filter fun r => decide (rowKey cols onCols r = k)).map fun r => numOf (valAt cols r c)).sum

def seriesLookup (s : List (Int × Value)) (l : Int) : Value :=
  match s.find? fun p => decide (p.1 = l) with
  | some p => p.2
  | none => Value.null

/-- `df[c] = series`: pandas aligns the series on `df`'s index labels;
labels absent from the series become NaN. -/
def setColAligned (t : Table) (c : String) (s : List (Int × Value)) : Table :=
  setColPositional t c (t.index.map (seriesLookup s))

/-- The series `df.groupby(on).sum(target).reset_index(drop=True)`
produces.  The column name `target` lands positionally in `numeric_only`,
a truthy flag: the grouped frame sums every non-key numeric column
(`target` itself plays no role), rows whose key contains NaN are dropped,
groups are sorted by key, and `reset_index(drop=True)` relabels the group
rows 0..G-1. -/
def groupedSumSeries (t : Table) (onCols : List String) (c : String) : List (Int × Value) :=
  let grows := t.rows.filter fun r => !(keyHasNull (rowKey t.columns onCols r))
  let ks := sortKeys (firstDedup (grows.map (rowKey t.columns onCols)) [])
  (intRange ks.length).zip (ks.map fun k => Value.num (groupSumRows t.columns onCols c grows k))

/-- `_sum_energies_for_multiple_entry_addresses`:
`df[result] = df.groupby(on).sum(target).reset_index(drop=True)`, behind
two icontract requires on the columns.  Assigning the grouped frame to the
single column `result` only succeeds when the frame has exactly one column
(exactly one non-key numeric column); otherwise pandas raises a
ValueError. -/
def sum_energies_for_multiple_entry_addresses (t : Table) (onCols : List String)
    (target result : String) : Except PdError Table :=
  if ∀ c ∈ onCols, c ∈ t.columns then
    if target ∈ t.columns then
      match nonKeyNumericCols t onCols with
      | [c] => .ok (setColAligned t result (groupedSumSeries t onCols c))
      | _ => .error .valueError
    else .error .violation
  else .error .violation

inductive JoinMode where
  | inner
  | left
  | outer
  deriving DecidableEq, Repr

inductive Cardinality where
  | one_to_one
  | one_to_many
  | many_to_one
  | many_to_many
  deriving DecidableEq, Repr

def hasDupKeys (t : Table) (onCols : List String) : Bool :=
  decide (¬ (t.rows.map (rowKey t.columns onCols)).Nodup)

/-- pandas `merge(validate=...)`: which key-multiplicity patterns the
declared cardinality rejects (`one_to_many` requires the left keys unique,
`many_to_one` the right ones, `one_to_one` both). -/
def violatesCardinality (l r : Table) (onCols : List String) : Cardinality → Bool
  | .one_to_one => hasDupKeys l onCols || hasDupKeys r onCols
  | .one_to_many => hasDupKeys l onCols
  | .many_to_one => hasDupKeys r onCols
  | .many_to_many => false

def projNonKey (cols : List String) (onCols : List String) (row : List Value) : List Value :=
  ((cols.zip row).filter fun p => decide (¬ p.1 ∈ onCols)).map Prod.snd

def nonKeyCount (cols : List String) (onCols : List String) : Nat :=
  (cols.filter fun c => decide (¬ c ∈ onCols)).length

def indicatorCell (tag : String) (indicator : Bool) : List Value :=
  if indicator then [Value.str tag] else []

/-- Output schema of `merge`: left columns, right non-key columns
(clashing non-key names get the `_x`/`_y` suffixes), and `_merge` when
`indicator=True`. -/
def mergeColumns (l r : Table) (onCols : List String) (indicator : Bool) : List String :=
  let rightKeep := r.columns.filter fun c => decide (¬ c ∈ onCols)
  (l.columns.map fun c => if c ∈ rightKeep then c ++ "_x" else c)
    ++ (rightKeep.map fun c => if c ∈ l.columns then c ++ "_y" else c)
    ++ (if indicator then ["_merge"] else [])

/-- The merge output rows contributed by one left row: its matching right
rows (in right order), or — unmatched, for `how` in left/outer — a single
NaN-padded row. -/
def mergeBlock (l r : Table) (onCols : List String) (how : JoinMode) (indicator : Bool)
    (lr : List Value) : List (List Value) :=
  let ms := r.rows.filter fun rr =>
    decide (rowKey r.columns onCols rr = rowKey l.columns onCols lr)
  if ms.isEmpty then
    if how = JoinMode.inner then []
    else [lr ++ List.replicate (nonKeyCount r.columns onCols) Value.null
            ++ indicatorCell "left_only" indicator]
  else ms.map fun rr => lr ++ projNonKey r.columns onCols rr ++ indicatorCell "both" indicator

/-- The right rows with no left match, appended for `how=outer`, their key
columns taken from the right row and all other left columns NaN. -/
def mergeRightPart (l r : Table) (onCols : List String) (how : JoinMode)
    (indicator : Bool) : List (List Value) :=
  if how = JoinMode.outer then
    (r.rows.filter fun rr => l.rows.all fun lr =>
        decide (¬ rowKey l.columns onCols lr = rowKey r.columns onCols rr)).map fun rr =>
      (l.columns.map fun c => if c ∈ onCols then valAt r.columns rr c else Value.null)
        ++ projNonKey r.columns onCols rr ++ indicatorCell "right_only" indicator
  else []

/-- Output rows of `merge` with `sort=False`: every left row in order,
expanded by its matching right rows (in right order); an unmatched left
row survives with NaNs for `how` in left/outer; unmatched right rows are
appended for `how=outer`. -/
def mergeRows (l r : Table) (onCols : List String) (how : JoinMode) (indicator : Bool) :
    List (List Value) :=
  l.rows.flatMap (mergeBlock l r onCols how indicator)
    ++ mergeRightPart l r onCols how indicator

/-- `DataFrame.merge(right, on=..., how=..., indicator=..., validate=...)`.
Both call sites guard `on ⊆ columns` with icontract requires; the declared
cardinality, when present, is validated against the actual key
multiplicities and a violation raises a MergeError before any output
exists.  The result gets a fresh 0..M-1 index. -/
def mergeTables (l r : Table) (onCols : List String) (how : JoinMode) (indicator : Bool)
    (validate : Option Cardinality) : Except PdError Table :=
  if ∀ c ∈ onCols, c ∈ l.columns then
    if ∀ c ∈ onCols, c ∈ r.columns then
      match validate with
      | some card =>
        if violatesCardinality l r onCols card then .error .mergeError
        else .ok ⟨mergeColumns l r onCols indicator,
                  intRange (mergeRows l r onCols how indicator).length,
                  mergeRows l r onCols how indicator⟩
      | none => .ok ⟨mergeColumns l r onCols indicator,
                     intRange (mergeRows l r onCols how indicator).length,
                     mergeRows l r onCols how indicator⟩
    else .error .violation
  else .error .violation

/-- `_merge_on_common_postcodes` (gni.py): a merge with a mandatory
`validate` cardinality contract; the flow calls it with `how="outer",
validate="one_to_many"`. -/
def merge_on_common_postcodes (gas postcodes : Table) (onCols : List String)
    (validate : Cardinality) (how : JoinMode) : Except PdError Table :=
  mergeTables gas postcodes onCols how false (some validate)

/-- `_merge_mprn_and_gprn_on_common_addresses` (m_and_r.py): a plain merge
whose kwargs in the flow are `how="left", indicator=True` — no
`validate` contract at all. -/
def merge_mprn_and_gprn_on_common_addresses (mprn gprn : Table) (onCols : List String)
    (how : JoinMode) (indicator : Bool) : Except PdError Table :=
  mergeTables mprn gprn onCols how indicator none

def countKeyRows (cols : List String) (onCols : List String) (rows : List (List Value))
    (k : List Value) : Nat :=
  (rows.filter fun row => decide (rowKey cols onCols row = k)).length

/-- One step of a Python dict comprehension: a repeated key keeps its
original position but takes the new value. -/
def pyDictInsert (d : List (String × String)) (k v : String) : List (String × String) :=
  if ∃ p ∈ d, p.1 = k then d.map fun p => if p.1 = k then (k, v) else p
  else d ++ [(k, v)]

/-- The dict comprehension of `_convert_parsed_address_to_dict`: for each
(fragment, label) pair, `pair[1]` (the label) becomes the key and
`pair[0]` (the fragment) the value; a label occurring several times ends
bound to its last fragment. -/
def pairsToDict (ps : List (String × String)) : List (String × String) :=
  ps.foldl (fun d p => pyDictInsert d p.2 p.1) []

def isPairsVal : Value → Bool
  | .pairs _ => true
  | _ => false

/-- `_convert_parsed_address_to_dict`: applies the dict comprehension to
each cell of the parsed-address column (iterating a non-sequence cell
would raise a TypeError). -/
def convert_parsed_address_to_dict (t : Table) (target result : String) :
    Except PdError Table :=
  if target ∈ t.columns then
    match getCol t target with
    | none => .error (.keyError target)
    | some vs =>
      if vs.all isPairsVal then
        .ok (setColPositional t result (vs.map fun v =>
          match v with
          | .pairs ps => Value.dict (pairsToDict ps)
          | _ => Value.null))
      else .error .typeError
  else .error .violation

def dictOf : Value → List (String × String)
  | .dict d => d
  | _ => []

/-- Column labels of `pd.json_normalize`: dict keys in first-seen order. -/
def normLabels (cells : List Value) : List String :=
  firstDedup (cells.flatMap fun v => (dictOf v).map Prod.fst) []

/-- `pd.json_normalize(df[target])`: one column per label, a fresh 0..N-1
index, NaN where a row's dict lacks the label. -/
def jsonNormalize (cells : List Value) : Table :=
  ⟨normLabels cells, intRange cells.length,
   cells.map fun v => (normLabels cells).map fun lab =>
     match (dictOf v).find? fun p => decide (p.1 = lab) with
     | some p => Value.str p.2
     | none => Value.null⟩

def lookupRow : List Int → List (List Value) → Int → Option (List Value)
  | [], _, _ => none
  | _, [], _ => none
  | i :: is, r :: rs, l => if i = l then some r else lookupRow is rs l

def insertSortedInt (x : Int) : List Int → List Int
  | [] => [x]
  | y :: ys => if x ≤ y then x :: y :: ys else y :: insertSortedInt x ys

def sortInts (xs : List Int) : List Int := xs.foldr insertSortedInt []

/-- `pd.concat([a, b], axis="columns")`: with identical indexes the rows
are glued positionally; otherwise the frames are outer-aligned on the
sorted union of the two (unique) label sets, missing labels padded with
NaN; diverging non-unique indexes cannot be reindexed. -/
def concatCols (a b : Table) : Except PdError Table :=
  if a.index = b.index then
    .ok ⟨a.columns ++ b.columns, a.index, List.zipWith (· ++ ·) a.rows b.rows⟩
  else if a.index.Nodup ∧ b.index.Nodup then
    .ok ⟨a.columns ++ b.columns,
         sortInts (a.index ++ b.index.filter fun l => decide (¬ l ∈ a.index)),
         (sortInts (a.index ++ b.index.filter fun l => decide (¬ l ∈ a.index))).map fun l =>
           ((lookupRow a.index a.rows l).getD (List.replicate a.columns.length Value.null))
             ++ ((lookupRow b.index b.rows l).getD (List.replicate b.columns.length Value.null))⟩
  else .error .invalidIndex

/-- `_expand_parsed_address_dict`: two requires — the target column must
exist, and `len(df) - 1 == df.index[-1]` ("Index must reflect actual
length for pd.concat to succeed") — then `pd.concat([df,
pd.json_normalize(df[target])], axis="columns")`.  On an empty frame
`df.index[-1]` itself raises an IndexError inside the contract. -/
def expand_parsed_address_dict (t : Table) (target : String) : Except PdError Table :=
  if target ∈ t.columns then
    match t.index.getLast? with
    | none => .error .indexError
    | some l =>
      if l = (t.rows.length : Int) - 1 then
        match getCol t target with
        | none => .error (.keyError target)
        | some cells => concatCols t (jsonNormalize cells)
      else .error .violation
  else .error .violation

/-- `_reset_index`: `df.reset_index()` — moves the old index into a new
leading "index" column and installs a fresh 0..N-1 index. -/
def reset_index (t : Table) : Table :=
  ⟨"index" :: t.columns, intRange t.rows.length,
   List.zipWith (fun l r => Value.num l :: r) t.index t.rows⟩

/-- Flow step `mprn_summated`: the aggregation is keyed on
(`standardised_address`, `Year`) — the pre-grouping standardised string,
not `deduped_address`. -/
def mprn_summated (df : Table) : Except PdError Table :=
  sum_energies_for_multiple_entry_addresses df ["standardised_address", "Year"]
    "electricity_demand_kwh_year" "summated_electricity_demand_kwh_year"

/-- Flow step `mprn_deduped`: drop duplicates on
(`standardised_address`, `Year`). -/
def mprn_deduped (df : Table) : Except PdError Table :=
  (mprn_summated df).bind fun u => drop_duplicates u ["standardised_address", "Year"]

/-- Flow step `gprn_summated`. -/
def gprn_summated (df : Table) : Except PdError Table :=
  sum_energies_for_multiple_entry_addresses df ["standardised_address", "Year"]
    "gas_demand_kwh_year" "summated_gas_demand_kwh_year"

/-- Flow step `gprn_deduped`. -/
def gprn_deduped (df : Table) : Except PdError Table :=
  (gprn_summated df).bind fun u => drop_duplicates u ["standardised_address", "Year"]

/-- Flow step `gprn_extracted`. -/
def gprn_extracted (df : Table) : Except PdError Table :=
  (gprn_deduped df).bind fun u => extract_columns u
    ["deduped_address", "standardised_address", "Year", "summated_gas_demand_kwh_year"]

/-- Flow step `m_and_r_raw`: joins the two deduped tables on
(`standardised_address`, `Year`) with `how="left", indicator=True` and no
`validate` contract. -/
def m_and_r_raw (mprn gprn : Table) : Except PdError Table :=
  merge_mprn_and_gprn_on_common_addresses mprn gprn ["standardised_address", "Year"]
    JoinMode.left true

/-- State of the caller's `df` after `_aggregate_columns`: the function
assigns into `df` and returns the same object. -/
def aggregate_columns_input_after (t : Table) (cns : List String) (tc : String) : Table :=
  match aggregate_columns t cns tc with
  | .ok u => u
  | .error _ => t

/-- State of the caller's `df` after `_dedupe_column` (in-place column
assignment). -/
def dedupe_column_input_after (groupFn : List Value → List Value) (t : Table)
    (target result : String) : Table :=
  match dedupe_column groupFn t target result with
  | .ok u => u
  | .error _ => t

/-- State of the caller's `addresses` after `_standardise_addresses`
(in-place column assignment). -/
def standardise_addresses_input_after (expandFn : String → List String) (t : Table)
    (on_column to_column : String) : Table :=
  match standardise_addresses expandFn t on_column to_column with
  | .ok u => u
  | .error _ => t

/-- State of the caller's `df` after
`_sum_energies_for_multiple_entry_addresses` (in-place column
assignment). -/
def sum_energies_input_after (t : Table) (onCols : List String) (target result : String) : Table :=
  match sum_energies_for_multiple_entry_addresses t onCols target result with
  | .ok u => u
  | .error _ => t

/-- `df.rename` returns a new frame: the caller's table is untouched. -/
def rename_columns_input_after (t : Table) (mapping : List (String × String)) : Table :=
  let _ := mapping
  t

/-- `df.loc[:, cols]` returns a new frame: the caller's table is
untouched. -/
def extract_columns_input_after (t : Table) (cns : List String) : Table :=
  let _ := cns
  t

/-- `df.drop_duplicates` returns a new frame: the caller's table is
untouched. -/
def drop_duplicates_input_after (t : Table) (onCols : List String) : Table :=
  let _ := onCols
  t

/-- The spec's aggregation-correctness example table: two A-rows and one
B-row for period 2019. -/
def exC1 : Table :=
  ⟨["addr", "period", "val"], [0, 1, 2],
   [[Value.str "A", Value.num 2019, Value.num 10],
    [Value.str "A", Value.num 2019, Value.num 5],
    [Value.str "B", Value.num 2019, Value.num 7]]⟩

/-- A table whose source column `val` holds a non-numeric string while
another non-key column `other` is numeric. -/
def exC7 : Table :=
  ⟨["addr", "period", "val", "other"], [0, 1, 2],
   [[Value.str "A", Value.num 2019, Value.str "oops", Value.num 1],
    [Value.str "A", Value.num 2019, Value.num 5, Value.num 2],
    [Value.str "B", Value.num 2019, Value.num 7, Value.null]]⟩

/-- A three-row table whose index [7, 3, 2] is not contiguous 0..N-1 yet
satisfies `df.index[-1] == len(df) - 1`. -/
def exC4 : Table :=
  ⟨["a", "d"], [7, 3, 2],
   [[Value.num 1, Value.dict [("house", "1")]],
    [Value.num 2, Value.dict [("road", "main st")]],
    [Value.num 3, Value.dict [("house", "2")]]]⟩

/-- A contiguous-index table of parsed-address dicts. -/
def exC4w : Table :=
  ⟨["a", "d"], [0, 1],
   [[Value.num 1, Value.dict [("house", "5"), ("road", "high st")]],
    [Value.num 2, Value.dict [("road", "low st")]]]⟩

/-- An electricity-side table shaped like `mprn_deduped` output. -/
def exC2mprn : Table :=
  ⟨["standardised_address", "Year", "deduped_address",
    "summated_electricity_demand_kwh_year"],
   [0, 1],
   [[Value.str "1 main st", Value.num 2019, Value.str "1 main st", Value.num 10],
    [Value.str "2 high st", Value.num 2019, Value.str "2 high st", Value.num 4]]⟩

/-- A gas-side table shaped like `gprn_extracted` output with a duplicated
(`standardised_address`, `Year`) key — a one_to_one violation. -/
def exC2gprn : Table :=
  ⟨["deduped_address", "standardised_address", "Year",
    "summated_gas_demand_kwh_year"],
   [0, 1],
   [[Value.str "1 main st", Value.str "1 main st", Value.num 2019, Value.num 3],
    [Value.str "1 main st", Value.str "1 main st", Value.num 2019, Value.num 6]]⟩

/-- Two rows sharing `deduped_address` and `Year` but with different
`standardised_address` spellings. -/
def exC2agg : Table :=
  ⟨["standardised_address", "Year", "deduped_address",
    "electricity_demand_kwh_year"],
   [0, 1],
   [[Value.str "1 main st", Value.num 2019, Value.str "main st", Value.num 10],
    [Value.str "1 mian st", Value.num 2019, Value.str "main st", Value.num 5]]⟩

/-- Left table of the spec's join-cardinality example: unique keys A, B. -/
def exGas : Table :=
  ⟨["k", "lv"], [0, 1], [[Value.str "A", Value.num 1], [Value.str "B", Value.num 2]]⟩

/-- Right table of the spec's join-cardinality example: key A twice. -/
def exPostcodes : Table :=
  ⟨["k", "rv"], [0, 1], [[Value.str "A", Value.num 10], [Value.str "A", Value.num 20]]⟩

/-- A table with a duplicated key A, for the dedup-first witness. -/
def exC6 : Table :=
  ⟨["k", "v"], [0, 1, 2],
   [[Value.str "A", Value.num 1], [Value.str "A", Value.num 2],
    [Value.str "B", Value.num 3]]⟩

/-- A two-row postcodes table with one null cell. -/
def t10w : Table := ⟨["postcodes"], [0, 1], [[Value.str "Dublin  1"], [Value.null]]⟩

/-- A one-column table without a postcodes column. -/
def t5c : Table := ⟨["Consumption"], [0], [[Value.num 3]]⟩

/-- A minimal one-cell table. -/
def t5w : Table := ⟨["a"], [0], [[Value.num 1]]⟩

theorem colIndex_lt_length {cs : List String} {d : String} {i : Nat}
    (h : colIndex cs d = some i) : i < cs.length := by
  induction cs generalizing i with
  | nil => simp [colIndex] at h
  | cons c cs ih =>
    by_cases hc : c = d
    · simp only [colIndex, if_pos hc, Option.some.injEq] at h
      subst h
      simp
    · simp only [colIndex, if_neg hc, Option.map_eq_some'] at h
      obtain ⟨j, hj, rfl⟩ := h
      have := ih hj
      simp
      omega

theorem colIndex_mem {cs : List String} {d : String} {i : Nat}
    (h : colIndex cs d = some i) : d ∈ cs := by
  induction cs generalizing i with
  | nil => simp [colIndex] at h
  | cons c cs ih =>
    by_cases hc : c = d
    · simp [hc]
    · simp only [colIndex, if_neg hc, Option.map_eq_some'] at h
      obtain ⟨j, hj, rfl⟩ := h
      exact List.mem_cons_of_mem _ (ih hj)

theorem colIndex_eq_none {cs : List String} {d : String}
    (h : ¬ d ∈ cs) : colIndex cs d = none := by
  induction cs with
  | nil => rfl
  | cons c cs ih =>
    have hc : ¬ c = d := by rintro rfl; exact h (List.mem_cons_self _ _)
    have h' : ¬ d ∈ cs := fun hm => h (List.mem_cons_of_mem _ hm)
    simp [colIndex, hc, ih h']

theorem colIndex_isSome_of_mem {cs : List String} {d : String}
    (h : d ∈ cs) : ∃ i, colIndex cs d = some i := by
  induction cs with
  | nil => simp at h
  | cons c cs ih =>
    by_cases hc : c = d
    · exact ⟨0, by simp [colIndex, hc]⟩
    · rcases List.mem_cons.mp h with h1 | h2
      · exact absurd h1.symm hc
      · obtain ⟨i, hi⟩ := ih h2
        exact ⟨i + 1, by simp [colIndex, hc, hi]⟩

theorem colIndex_append_of_some {cs : List String} {d : String} {i : Nat}
    (h : colIndex cs d = some i) (ds : List String) :
    colIndex (cs ++ ds) d = some i := by
  induction cs generalizing i with
  | nil => simp [colIndex] at h
  | cons c cs ih =>
    by_cases hc : c = d
    · simp only [colIndex, if_pos hc] at h ⊢
      exact h
    · simp only [colIndex, if_neg hc, Option.map_eq_some'] at h ⊢
      obtain ⟨j, hj, rfl⟩ := h
      exact ⟨j, ih hj, rfl⟩

theorem colIndex_append_self {cs : List String} {d : String}
    (h : colIndex cs d = none) : colIndex (cs ++ [d]) d = some cs.length := by
  induction cs with
  | nil => simp [colIndex]
  | cons c cs ih =>
    by_cases hc : c = d
    · simp [colIndex, hc] at h
    · simp only [colIndex, if_neg hc, Option.map_eq_none'] at h
      have hrec := ih h
      rw [show ((c :: cs) ++ [d]) = c :: (cs ++ [d]) from rfl]
      simp only [colIndex, if_neg hc, hrec, Option.map_some', List.length_cons]

theorem colIndex_getD {cs : List String} {d : String} {i : Nat}
    (h : colIndex cs d = some i) : cs.getD i "" = d := by
  induction cs generalizing i with
  | nil => simp [colIndex] at h
  | cons c cs ih =>
    by_cases hc : c = d
    · simp only [colIndex, if_pos hc] at h
      cases h
      simpa using hc
    · simp only [colIndex, if_neg hc, Option.map_eq_some'] at h
      obtain ⟨j, hj, rfl⟩ := h
      simpa using ih hj

theorem getD_append_len : ∀ (r : List Value) (v d : Value),
    (r ++ [v]).getD r.length d = v := by
  intro r v d
  induction r with
  | nil => rfl
  | cons a r ih => simp [ih]

theorem getD_append_left {s : List Value} : ∀ {r : List Value} {i : Nat},
    i < r.length → ∀ d, (r ++ s).getD i d = r.getD i d := by
  intro r
  induction r with
  | nil => intro i h; simp at h
  | cons a r ih =>
    intro i h d
    cases i with
    | zero => rfl
    | succ j =>
      have : j < r.length := by simpa using h
      simpa using ih this d

theorem getD_set_self : ∀ (r : List Value) (i : Nat), i < r.length →
    ∀ (v d : Value), (r.set i v).getD i d = v := by
  intro r
  induction r with
  | nil => intro i h; simp at h
  | cons a r ih =>
    intro i h v d
    cases i with
    | zero => rfl
    | succ j =>
      have : j < r.length := by simpa using h
      simpa using ih j this v d

theorem getD_map_colIndex {cs : List String} {d : String} {i : Nat}
    (f : String → Value) (h : colIndex cs d = some i) (dv : Value) :
    (cs.map f).getD i dv = f d := by
  induction cs generalizing i with
  | nil => simp [colIndex] at h
  | cons c cs ih =>
    by_cases hc : c = d
    · simp only [colIndex, if_pos hc] at h
      cases h
      simp [hc]
    · simp only [colIndex, if_neg hc, Option.map_eq_some'] at h
      obtain ⟨j, hj, rfl⟩ := h
      simpa using ih hj

theorem map_getD_zipWith_set {i : Nat} : ∀ (rows : List (List Value)) (vs : List Value),
    rows.length = vs.length → (∀ r ∈ rows, i < r.length) →
    (List.zipWith (fun r v => r.set i v) rows vs).map (fun r => r.getD i .null) = vs := by
  intro rows
  induction rows with
  | nil =>
    intro vs h _
    cases vs with
    | nil => rfl
    | cons a l => simp at h
  | cons r rows ih =>
    intro vs h hlen
    cases vs with
    | nil => simp at h
    | cons v vs =>
      simp only [List.zipWith_cons_cons, List.map_cons, List.cons.injEq]
      constructor
      · exact getD_set_self r i (hlen r (List.mem_cons_self _ _)) v .null
      · exact ih vs (by simpa using h) (fun q hq => hlen q (List.mem_cons_of_mem _ hq))

theorem map_getD_zipWith_append {n : Nat} : ∀ (rows : List (List Value)) (vs : List Value),
    rows.length = vs.length → (∀ r ∈ rows, r.length = n) →
    (List.zipWith (fun r v => r ++ [v]) rows vs).map (fun r => r.getD n .null) = vs := by
  intro rows
  induction rows with
  | nil =>
    intro vs h _
    cases vs with
    | nil => rfl
    | cons a l => simp at h
  | cons r rows ih =>
    intro vs h hlen
    cases vs with
    | nil => simp at h
    | cons v vs =>
      simp only [List.zipWith_cons_cons, List.map_cons, List.cons.injEq]
      constructor
      · have hr : r.length = n := hlen r (List.mem_cons_self _ _)
        rw [← hr]
        exact getD_append_len r v .null
      · exact ih vs (by simpa using h) (fun q hq => hlen q (List.mem_cons_of_mem _ hq))

theorem getCol_some_length {t : Table} {c : String} {vs : List Value}
    (h : getCol t c = some vs) : vs.length = t.rows.length := by
  simp only [getCol, Option.map_eq_some'] at h
  obtain ⟨i, _, rfl⟩ := h
  simp

/-- Reading back the column just written by a positional assignment. -/
theorem getCol_setColPositional (t : Table) (c : String) (vs : List Value)
    (hwf : ∀ r ∈ t.rows, r.length = t.columns.length)
    (hlen : t.rows.length = vs.length) :
    getCol (setColPositional t c vs) c = some vs := by
  cases hci : colIndex t.columns c with
  | some i =>
    simp only [setColPositional, hci, getCol]
    simp only [Option.map_some', Option.some.injEq]
    exact map_getD_zipWith_set t.rows vs hlen
      (fun r hr => by rw [hwf r hr]; exact colIndex_lt_length hci)
  | none =>
    simp only [setColPositional, hci, getCol]
    rw [colIndex_append_self hci]
    simp only [Option.map_some', Option.some.injEq]
    exact map_getD_zipWith_append t.rows vs hlen hwf

/-- C1 (code bug): on the spec's aggregation-correctness example, the
grouped sums are reassigned through the reset 0..G-1 index and align
positionally with the first G row labels instead of broadcasting per
group: the `total` column comes out [15, 7, NaN] — row 1, an A-row,
receives B's sum and the B-row receives NaN — where the specified
contract requires [15, 15, 7].  The row count is indeed unchanged. -/
theorem sum_energies_misaligns_at_spec_example :
    getCol (extractTable (sum_energies_for_multiple_entry_addresses exC1
        ["addr", "period"] "val" "total")) "total"
      = some [Value.num 15, Value.num 7, Value.null]
    ∧ (extractTable (sum_energies_for_multiple_entry_addresses exC1
        ["addr", "period"] "val" "total")).rows.length = exC1.rows.length
    ∧ [Value.num 15, Value.num 7, Value.null]
        ≠ [Value.num 15, Value.num 15, Value.num 7] := by
  decide

/-- C10: `_strip_whitespace` first casts every value of the target column
to its string representation, so a null postcode becomes the literal
string "nan" in the result column — an ordinary string key for later
joins — rather than staying null. -/
theorem strip_whitespace_null_becomes_nan (t : Table) (target result : String)
    (vs : List Value)
    (hwf : ∀ r ∈ t.rows, r.length = t.columns.length)
    (h : getCol t target = some vs) :
    strip_whitespace t target result
      = .ok (setColPositional t result (vs.map fun v => Value.str (collapseWs (pyStr v))))
    ∧ getCol (extractTable (strip_whitespace t target result)) result
      = some (vs.map fun v => Value.str (collapseWs (pyStr v)))
    ∧ Value.str (collapseWs (pyStr Value.null)) = Value.str "nan" := by
  have h1 : strip_whitespace t target result
      = .ok (setColPositional t result (vs.map fun v => Value.str (collapseWs (pyStr v)))) := by
    unfold strip_whitespace
    rw [h]
  refine ⟨h1, ?_, rfl⟩
  rw [h1]
  exact getCol_setColPositional t result _ hwf
    (by rw [List.length_map]; exact (getCol_some_length h).symm)

/-- Witness for C10 at a two-row postcodes table with one null cell. -/
theorem strip_whitespace_null_becomes_nan_witness :
    getCol (extractTable (strip_whitespace t10w "postcodes" "postcodes")) "postcodes"
      = some [Value.str "Dublin 1", Value.str "nan"] := by
  have h := (strip_whitespace_null_becomes_nan t10w "postcodes" "postcodes"
    [Value.str "Dublin  1", Value.null] (by decide) (by rfl)).2.1
  rw [h]
  decide

/-- C5 counterexample: `_strip_whitespace` takes a column argument but has
no `@require` guard; on a table without the target column it fails with a
pandas KeyError raised by the column lookup, not with the
PreconditionError the claim requires of every component. -/
theorem strip_whitespace_missing_column_not_precondition :
    strip_whitespace t5c "postcodes" "postcodes" = .error (.keyError "postcodes")
    ∧ PdError.keyError "postcodes" ≠ PdError.violation :=
  ⟨rfl, by decide⟩

/-- C5 (amended): components guarded by an icontract `@require` subset
contract (`_aggregate_columns`, `_drop_duplicates`) fail with the
PreconditionError before any transformation whenever the named columns are
not a subset of the table's columns; `_strip_whitespace`, which has no
guard, instead fails with a KeyError from the column lookup — also before
modifying the table, as its caller's frame is left unchanged. -/
theorem precondition_enforcement (t : Table) (cns onCols : List String)
    (tc target result : String)
    (hcns : ¬ ∀ c ∈ cns, c ∈ t.columns)
    (hon : ¬ ∀ c ∈ onCols, c ∈ t.columns)
    (htg : ¬ target ∈ t.columns) :
    aggregate_columns t cns tc = .error .violation
    ∧ drop_duplicates t onCols = .error .violation
    ∧ strip_whitespace t target result = .error (.keyError target)
    ∧ strip_whitespace_input_after t target result = t := by
  have hg : getCol t target = none := by
    unfold getCol
    rw [colIndex_eq_none htg]
    rfl
  refine ⟨?_, ?_, ?_, ?_⟩
  · unfold aggregate_columns
    rw [if_neg hcns]
  · unfold drop_duplicates
    rw [if_neg hon]
  · unfold strip_whitespace
    rw [hg]
  · unfold strip_whitespace_input_after strip_whitespace
    rw [hg]

/-- Witness for C5: all three failure modes at a concrete table missing
the requested column. -/
theorem precondition_enforcement_witness :
    aggregate_columns t5w ["missing"] "x" = .error .violation
    ∧ drop_duplicates t5w ["missing"] = .error .violation
    ∧ strip_whitespace t5w "missing" "x" = .error (.keyError "missing")
    ∧ strip_whitespace_input_after t5w "missing" "x" = t5w :=
  precondition_enforcement t5w ["missing"] ["missing"] "x" "missing" "x"
    (by decide) (by decide) (by decide)

/-- C7 counterexample: with the non-numeric string "oops" in the source
column `val`, the aggregation does not fail at all — `numeric_only`
silently drops `val`, and the sums written to the result column come from
the other non-key numeric column. -/
theorem sum_energies_accepts_non_numeric_source :
    (sum_energies_for_multiple_entry_addresses exC7
        ["addr", "period"] "val" "res").isOk = true
    ∧ getCol (extractTable (sum_energies_for_multiple_entry_addresses exC7
        ["addr", "period"] "val" "res")) "res"
      = some [Value.num 3, Value.num 0, Value.null] := by
  decide

/-- C7 (amended): the grouped sum runs with `numeric_only` truthy, so a
non-numeric source column is silently excluded rather than raising any
DataTypeError (no such failure path exists): the operation succeeds
whenever exactly one non-key numeric column remains, summing that column
with nulls contributing 0. -/
theorem sum_energies_numeric_only (t : Table) (onCols : List String)
    (target result c : String)
    (h1 : ∀ x ∈ onCols, x ∈ t.columns) (h2 : target ∈ t.columns)
    (h3 : nonKeyNumericCols t onCols = [c]) :
    sum_energies_for_multiple_entry_addresses t onCols target result
      = .ok (setColAligned t result (groupedSumSeries t onCols c))
    ∧ numOf Value.null = 0 := by
  constructor
  · unfold sum_energies_for_multiple_entry_addresses
    rw [if_pos h1, if_pos h2, h3]
  · rfl

/-- Witness for C7's amended statement at the mixed-dtype table. -/
theorem sum_energies_numeric_only_witness :
    sum_energies_for_multiple_entry_addresses exC7 ["addr", "period"] "val" "res"
      = .ok (setColAligned exC7 "res" (groupedSumSeries exC7 ["addr", "period"] "other"))
    ∧ numOf Value.null = 0 :=
  sum_energies_numeric_only exC7 ["addr", "period"] "val" "res" "other"
    (by decide) (by decide) (by decide)

/-- C8 counterexample: `_strip_whitespace` assigns its result column into
the frame passed in and returns that same object: at this concrete
one-row table the caller's input binding is not left unchanged — it has
gained a `y` column. -/
theorem strip_whitespace_mutates_input :
    strip_whitespace_input_after ⟨["x"], [0], [[Value.num 7]]⟩ "x" "y"
      ≠ (⟨["x"], [0], [[Value.num 7]]⟩ : Table) := by
  decide

/-- C8 (amended): `_rename_columns`, `_extract_columns` and
`_drop_duplicates` wrap pandas calls that return fresh frames, leaving the
caller's table unchanged; the column-assigning steps instead mutate the
frame passed in and return that same object — the input table gains the
result column (shown for `_strip_whitespace`), and for
`_aggregate_columns`, `_standardise_addresses`, `_dedupe_column` and
`_sum_energies_for_multiple_entry_addresses` the caller's binding equals
the returned table after the call. -/
theorem step_purity (t : Table) (mapping : List (String × String))
    (cns onCols : List String) (target result : String)
    (groupFn : List Value → List Value) (expandFn : String → List String)
    (htg : target ∈ t.columns) (hres : ¬ result ∈ t.columns) :
    rename_columns_input_after t mapping = t
    ∧ extract_columns_input_after t cns = t
    ∧ drop_duplicates_input_after t onCols = t
    ∧ strip_whitespace_input_after t target result ≠ t
    ∧ (∀ u, aggregate_columns t cns target = .ok u →
        aggregate_columns_input_after t cns target = u)
    ∧ (∀ u, standardise_addresses expandFn t target result = .ok u →
        standardise_addresses_input_after expandFn t target result = u)
    ∧ (∀ u, dedupe_column groupFn t target result = .ok u →
        dedupe_column_input_after groupFn t target result = u)
    ∧ (∀ u, sum_energies_for_multiple_entry_addresses t onCols target result = .ok u →
        sum_energies_input_after t onCols target result = u) := by
  refine ⟨rfl, rfl, rfl, ?_, ?_, ?_, ?_, ?_⟩
  · intro heq
    obtain ⟨i, hi⟩ := colIndex_isSome_of_mem htg
    have hg : getCol t target = some (t.rows.map fun r => r.getD i .null) := by
      unfold getCol
      rw [hi]
      rfl
    have hrn : colIndex t.columns result = none := colIndex_eq_none hres
    have hafter : strip_whitespace_input_after t target result
        = ⟨t.columns ++ [result], t.index,
           List.zipWith (fun r v => r ++ [v]) t.rows
             ((t.rows.map fun r => r.getD i .null).map
               fun v => Value.str (collapseWs (pyStr v)))⟩ := by
      unfold strip_whitespace_input_after strip_whitespace
      rw [hg]
      unfold setColPositional
      rw [hrn]
    rw [hafter] at heq
    have hcols := congrArg Table.columns heq
    have hlen := congrArg List.length hcols
    simp at hlen
  · intro u h
    unfold aggregate_columns_input_after
    rw [h]
  · intro u h
    unfold standardise_addresses_input_after
    rw [h]
  · intro u h
    unfold dedupe_column_input_after
    rw [h]
  · intro u h
    unfold sum_energies_input_after
    rw [h]

/-- Witness for C8 at a one-row table: the strip step really mutates. -/
theorem step_purity_witness :
    strip_whitespace_input_after t10w "postcodes" "clean" ≠ t10w :=
  (step_purity t10w [] [] [] "postcodes" "clean" id (fun s => [s])
    (by decide) (by decide)).2.2.2.1

/-- C2 counterexample: the gas-side table carries a duplicated
(`standardised_address`, `Year`) key — a one_to_one violation — yet the
pipeline join succeeds, because no `validate` contract is passed; and two
rows sharing `deduped_address` and `Year` but spelled differently in
`standardised_address` are NOT collapsed by the aggregate/dedupe steps,
which key on the standardised, not the deduped, address. -/
theorem m_and_r_join_unvalidated :
    (m_and_r_raw exC2mprn exC2gprn).isOk = true
    ∧ (extractTable (mprn_deduped exC2agg)).rows.length = 2 := by
  decide

theorem keys_pyDictInsert (d : List (String × String)) (k v : String) :
    (pyDictInsert d k v).map Prod.fst
      = if k ∈ d.map Prod.fst then d.map Prod.fst else d.map Prod.fst ++ [k] := by
  unfold pyDictInsert
  by_cases h : ∃ p ∈ d, p.1 = k
  · rw [if_pos h, if_pos (List.mem_map.mpr h), List.map_map]
    apply List.map_congr_left
    intro p _
    by_cases hpk : p.1 = k
    · simp [hpk]
    · simp [hpk]
  · rw [if_neg h, if_neg (fun hm => h (List.mem_map.mp hm)), List.map_append]
    rfl

theorem find?_pyDictInsert_self (d : List (String × String)) (k v : String) :
    (pyDictInsert d k v).find? (fun q => decide (q.1 = k)) = some (k, v) := by
  unfold pyDictInsert
  by_cases h : ∃ p ∈ d, p.1 = k
  · rw [if_pos h]
    induction d with
    | nil => simp at h
    | cons p d ih =>
      by_cases hpk : p.1 = k
      · simp [List.find?_cons, hpk]
      · obtain ⟨q, hq, hqk⟩ := h
        rcases List.mem_cons.mp hq with rfl | hq'
        · exact absurd hqk hpk
        · simp only [List.map_cons, if_neg hpk]
          rw [List.find?_cons_of_neg _ (by simp [hpk])]
          exact ih ⟨q, hq', hqk⟩
  · rw [if_neg h, List.find?_append]
    have hd : d.find? (fun q => decide (q.1 = k)) = none := by
      rw [List.find?_eq_none]
      intro p hp
      simp only [decide_eq_true_eq]
      intro hpk
      exact h ⟨p, hp, hpk⟩
    rw [hd]
    simp [List.find?_cons]

theorem find?_pyDictInsert_ne (d : List (String × String)) (k v x : String)
    (hx : x ≠ k) :
    (pyDictInsert d k v).find? (fun q => decide (q.1 = x))
      = d.find? (fun q => decide (q.1 = x)) := by
  unfold pyDictInsert
  by_cases h : ∃ p ∈ d, p.1 = k
  · rw [if_pos h]
    clear h
    induction d with
    | nil => rfl
    | cons p d ih =>
      by_cases hpk : p.1 = k
      · simp only [List.map_cons, if_pos hpk]
        rw [List.find?_cons_of_neg _ (fun hd => hx (of_decide_eq_true hd).symm),
            List.find?_cons_of_neg _ (fun hd => hx (hpk ▸ of_decide_eq_true hd).symm)]
        exact ih
      · simp only [List.map_cons, if_neg hpk]
        by_cases hpx : p.1 = x
        · rw [List.find?_cons_of_pos _ (by simp [hpx]),
              List.find?_cons_of_pos _ (by simp [hpx])]
        · rw [List.find?_cons_of_neg _ (by simp [hpx]),
              List.find?_cons_of_neg _ (by simp [hpx])]
          exact ih
  · rw [if_neg h, List.find?_append]
    have hone : List.find? (fun q => decide (q.1 = x)) [(k, v)] = none := by
      simp
      exact fun he => hx he.symm
    rw [hone]
    exact Option.or_none

theorem foldl_insert_mem (ps : List (String × String)) :
    ∀ (d : List (String × String)) (x : String),
      x ∈ (ps.foldl (fun d p => pyDictInsert d p.2 p.1) d).map Prod.fst
        ↔ x ∈ d.map Prod.fst ∨ x ∈ ps.map Prod.snd := by
  induction ps with
  | nil =>
    intro d x
    simp
  | cons p ps ih =>
    intro d x
    rw [List.foldl_cons, ih, keys_pyDictInsert]
    by_cases h : p.2 ∈ d.map Prod.fst
    · rw [if_pos h]
      simp only [List.map_cons, List.mem_cons]
      constructor
      · rintro (h1 | h2)
        · exact Or.inl h1
        · exact Or.inr (Or.inr h2)
      · rintro (h1 | rfl | h2)
        · exact Or.inl h1
        · exact Or.inl h
        · exact Or.inr h2
    · rw [if_neg h]
      simp only [List.mem_append, List.map_cons, List.mem_cons, List.mem_singleton]
      tauto

theorem foldl_insert_nodup (ps : List (String × String)) :
    ∀ d : List (String × String), (d.map Prod.fst).Nodup →
      ((ps.foldl (fun d p => pyDictInsert d p.2 p.1) d).map Prod.fst).Nodup := by
  induction ps with
  | nil => exact fun d h => h
  | cons p ps ih =>
    intro d h
    rw [List.foldl_cons]
    apply ih
    rw [keys_pyDictInsert]
    by_cases hm : p.2 ∈ d.map Prod.fst
    · rw [if_pos hm]
      exact h
    · rw [if_neg hm]
      refine List.Nodup.append h (List.nodup_singleton _) ?_
      intro a ha hb
      rw [List.mem_singleton] at hb
      subst hb
      exact hm ha

theorem foldl_insert_find? (ps : List (String × String)) :
    ∀ (d : List (String × String)) (x : String),
      (ps.foldl (fun d p => pyDictInsert d p.2 p.1) d).find? (fun q => decide (q.1 = x))
        = match ps.reverse.find? (fun p => decide (p.2 = x)) with
          | some p => some (x, p.1)
          | none => d.find? (fun q => decide (q.1 = x)) := by
  induction ps with
  | nil =>
    intro d x
    rfl
  | cons p ps ih =>
    intro d x
    rw [List.foldl_cons, ih, List.reverse_cons, List.find?_append]
    cases hrev : ps.reverse.find? (fun p => decide (p.2 = x)) with
    | some q => rfl
    | none =>
      simp only [Option.none_or]
      by_cases hpx : p.2 = x
      · rw [show List.find? (fun p => decide (p.2 = x)) [p] = some p from
          List.find?_cons_of_pos _ (by simp [hpx])]
        subst hpx
        exact find?_pyDictInsert_self d p.2 p.1
      · rw [show List.find? (fun p => decide (p.2 = x)) [p] = none from
          List.find?_cons_of_neg _ (fun hd => hpx (of_decide_eq_true hd))]
        exact find?_pyDictInsert_ne d p.2 p.1 x fun he => hpx he.symm

/-- C9: converting a parsed address (a sequence of (fragment, label)
pairs) to a Structured Address dict binds exactly the distinct labels of
the sequence — each exactly once — and a label occurring in several pairs
is bound to the fragment of the last such pair. -/
theorem parsed_address_dict_last_label_wins (ps : List (String × String)) :
    ((pairsToDict ps).map Prod.fst).Nodup
    ∧ (∀ lab, lab ∈ (pairsToDict ps).map Prod.fst ↔ lab ∈ ps.map Prod.snd)
    ∧ (∀ lab, (pairsToDict ps).find? (fun q => decide (q.1 = lab))
        = match ps.reverse.find? (fun p => decide (p.2 = lab)) with
          | some p => some (lab, p.1)
          | none => none) := by
  refine ⟨foldl_insert_nodup ps [] (by simp), ?_, ?_⟩
  · intro lab
    unfold pairsToDict
    rw [foldl_insert_mem]
    simp
  · intro lab
    unfold pairsToDict
    rw [foldl_insert_find?]
    cases ps.reverse.find? (fun p => decide (p.2 = lab)) with
    | some q => rfl
    | none => rfl

theorem map_snd_zip_eq {α β : Type} : ∀ (as : List α) (bs : List β),
    as.length = bs.length → (as.zip bs).map Prod.snd = bs := by
  intro as
  induction as with
  | nil =>
    intro bs h
    cases bs with
    | nil => rfl
    | cons b bs => simp at h
  | cons a as ih =>
    intro bs h
    cases bs with
    | nil => simp at h
    | cons b bs =>
      simp only [List.zip_cons_cons, List.map_cons]
      rw [ih bs (by simpa using h)]

theorem dedupPairs_filter (K : List Value → List Value) (k : List Value) :
    ∀ (ps : List (Int × List Value)) (seen : List (List Value)),
      ((dedupPairs K ps seen).map Prod.snd).filter (fun r => decide (K r = k))
        = if k ∈ seen then []
          else ((ps.map Prod.snd).find? (fun r => decide (K r = k))).toList := by
  intro ps
  induction ps with
  | nil =>
    intro seen
    by_cases h : k ∈ seen <;> simp [dedupPairs, h]
  | cons p ps ih =>
    intro seen
    by_cases hp : K p.2 ∈ seen
    · rw [dedupPairs, if_pos hp, ih]
      by_cases hk : k ∈ seen
      · rw [if_pos hk, if_pos hk]
      · rw [if_neg hk, if_neg hk, List.map_cons]
        have hcf : List.find? (fun r => decide (K r = k)) (p.2 :: List.map Prod.snd ps)
            = List.find? (fun r => decide (K r = k)) (List.map Prod.snd ps) :=
          List.find?_cons_of_neg _ fun hd => hk (of_decide_eq_true hd ▸ hp)
        rw [hcf]
    · rw [dedupPairs, if_neg hp]
      simp only [List.map_cons, List.filter_cons]
      by_cases hpk : K p.2 = k
      · rw [if_pos (by simp [hpk]), ih,
            if_pos (show k ∈ K p.2 :: seen from hpk ▸ List.mem_cons_self _ _),
            if_neg (show ¬ k ∈ seen from fun hk => hp (hpk ▸ hk)),
            List.find?_cons_of_pos _ (by simp [hpk])]
        rfl
      · rw [if_neg (by simp [hpk]), ih,
            List.find?_cons_of_neg _ (by simp [hpk])]
        by_cases hk : k ∈ seen
        · rw [if_pos hk, if_pos (List.mem_cons_of_mem _ hk)]
        · rw [if_neg hk, if_neg (by
            intro hm
            rcases List.mem_cons.mp hm with he | he
            · exact hpk he.symm
            · exact hk he)]

/-- C6: `_drop_duplicates` keeps exactly one row per distinct combination
of key values — the first row in input order — and discards the later
ones: in the output, the rows carrying key `k` are exactly the first input
row with key `k`. -/
theorem drop_duplicates_keeps_first_per_key (t : Table) (onCols : List String)
    (hsub : ∀ c ∈ onCols, c ∈ t.columns) (hlen : t.index.length = t.rows.length) :
    (drop_duplicates t onCols).isOk = true
    ∧ (extractTable (drop_duplicates t onCols)).columns = t.columns
    ∧ ∀ k, (extractTable (drop_duplicates t onCols)).rows.filter
            (fun r => decide (rowKey t.columns onCols r = k))
        = (t.rows.find? (fun r => decide (rowKey t.columns onCols r = k))).toList := by
  have hok : drop_duplicates t onCols
      = .ok ⟨t.columns,
             (dedupPairs (rowKey t.columns onCols) (t.index.zip t.rows) []).map Prod.fst,
             (dedupPairs (rowKey t.columns onCols) (t.index.zip t.rows) []).map Prod.snd⟩ := by
    unfold drop_duplicates
    rw [if_pos hsub]
  refine ⟨by rw [hok]; rfl, by rw [hok]; rfl, ?_⟩
  intro k
  rw [hok]
  show ((dedupPairs (rowKey t.columns onCols) (t.index.zip t.rows) []).map Prod.snd).filter
      (fun r => decide (rowKey t.columns onCols r = k))
    = (t.rows.find? (fun r => decide (rowKey t.columns onCols r = k))).toList
  rw [dedupPairs_filter, if_neg (by simp), map_snd_zip_eq t.index t.rows hlen]

/-- Witness for C6: with key A duplicated, the output keeps exactly the
first A-row. -/
theorem drop_duplicates_keeps_first_per_key_witness :
    (extractTable (drop_duplicates exC6 ["k"])).rows.filter
        (fun r => decide (rowKey exC6.columns ["k"] r = [Value.str "A"]))
      = [[Value.str "A", Value.num 1]] := by
  have h := (drop_duplicates_keeps_first_per_key exC6 ["k"] (by decide) (by decide)).2.2
    [Value.str "A"]
  rw [h]
  decide

theorem mem_firstDedup {α : Type} [DecidableEq α] (x : α) :
    ∀ (l seen : List α), x ∈ firstDedup l seen ↔ x ∈ l ∧ ¬ x ∈ seen := by
  intro l
  induction l with
  | nil =>
    intro seen
    simp [firstDedup]
  | cons y l ih =>
    intro seen
    by_cases hy : y ∈ seen
    · rw [firstDedup, if_pos hy, ih]
      constructor
      · rintro ⟨h1, h2⟩
        exact ⟨List.mem_cons_of_mem _ h1, h2⟩
      · rintro ⟨h1, h2⟩
        rcases List.mem_cons.mp h1 with rfl | h1
        · exact absurd hy h2
        · exact ⟨h1, h2⟩
    · rw [firstDedup, if_neg hy]
      constructor
      · intro hm
        rcases List.mem_cons.mp hm with rfl | hm
        · exact ⟨List.mem_cons_self _ _, hy⟩
        · have h2 := (ih _).mp hm
          refine ⟨List.mem_cons_of_mem _ h2.1, fun hs => h2.2 (List.mem_cons_of_mem _ hs)⟩
      · rintro ⟨h1, h2⟩
        rcases List.mem_cons.mp h1 with rfl | h1
        · exact List.mem_cons_self _ _
        · by_cases hxy : x = y
          · subst hxy
            exact List.mem_cons_self _ _
          · refine List.mem_cons_of_mem _ ((ih _).mpr ⟨h1, ?_⟩)
            intro hm
            rcases List.mem_cons.mp hm with he | he
            · exact hxy he
            · exact h2 he

theorem firstDedup_nodup {α : Type} [DecidableEq α] :
    ∀ (l seen : List α), (firstDedup l seen).Nodup := by
  intro l
  induction l with
  | nil =>
    intro seen
    simp [firstDedup]
  | cons y l ih =>
    intro seen
    by_cases hy : y ∈ seen
    · rw [firstDedup, if_pos hy]
      exact ih seen
    · rw [firstDedup, if_neg hy]
      refine List.nodup_cons.mpr ⟨?_, ih _⟩
      intro hm
      exact ((mem_firstDedup y l (y :: seen)).mp hm).2 (List.mem_cons_self _ _)

theorem intRange_getLast? {n : Nat} (h : 0 < n) :
    (intRange n).getLast? = some ((n : Int) - 1) := by
  cases n with
  | zero => simp at h
  | succ m =>
    unfold intRange
    rw [List.range_succ, List.map_append,
        show List.map Int.ofNat [m] = [Int.ofNat m] from rfl, List.getLast?_concat]
    congr 1
    rw [Int.ofNat_eq_natCast]
    push_cast
    ring

/-- `expand` reduced to the concat when both guards pass. -/
theorem expand_ok (t : Table) (target : String) (cells : List Value)
    (htg : target ∈ t.columns)
    (hlast : t.index.getLast? = some ((t.rows.length : Int) - 1))
    (hcol : getCol t target = some cells) :
    expand_parsed_address_dict t target = concatCols t (jsonNormalize cells) := by
  unfold expand_parsed_address_dict
  rw [if_pos htg, hlast, hcol]
  simp

/-- `expand` fails with the contract violation when the last index label
is off. -/
theorem expand_violation (t : Table) (target : String) (lv : Int)
    (htg : target ∈ t.columns)
    (hlast : t.index.getLast? = some lv)
    (hlv : lv ≠ (t.rows.length : Int) - 1) :
    expand_parsed_address_dict t target = .error .violation := by
  unfold expand_parsed_address_dict
  rw [if_pos htg, hlast]
  simp [hlv]

/-- C4 (amended): the expansion guard checks only that the LAST index
label equals rowcount−1, not contiguity.  A table whose last label is off
is rejected with the precondition violation before any output; a table
whose index is exactly 0..N−1 succeeds and appends one new column per
distinct label (each exactly once), positionally aligned with its
originating rows; but a non-contiguous index whose last label happens to
equal N−1 (e.g. [7, 3, 2]) slips through the check instead of failing
(see the counterexample). -/
theorem expand_index_check_and_alignment (t : Table) (target : String)
    (cells : List Value)
    (hcol : getCol t target = some cells)
    (hidx : t.index = intRange t.rows.length)
    (hne : 0 < t.rows.length) :
    expand_parsed_address_dict t target
      = .ok ⟨t.columns ++ normLabels cells, t.index,
             List.zipWith (· ++ ·) t.rows (jsonNormalize cells).rows⟩
    ∧ (normLabels cells).Nodup
    ∧ (∀ lab, lab ∈ normLabels cells ↔ ∃ v ∈ cells, lab ∈ (dictOf v).map Prod.fst)
    ∧ (∀ (u : Table) (tg : String) (lv : Int), tg ∈ u.columns →
        u.index.getLast? = some lv → lv ≠ (u.rows.length : Int) - 1 →
        expand_parsed_address_dict u tg = .error .violation) := by
  have htg : target ∈ t.columns := by
    cases hci : colIndex t.columns target with
    | none =>
      rw [getCol, hci] at hcol
      simp at hcol
    | some i => exact colIndex_mem hci
  have hclen : cells.length = t.rows.length := getCol_some_length hcol
  refine ⟨?_, firstDedup_nodup _ _, ?_, ?_⟩
  · rw [expand_ok t target cells htg (by rw [hidx]; exact intRange_getLast? hne) hcol]
    unfold concatCols
    rw [if_pos (show t.index = (jsonNormalize cells).index by
      rw [hidx]
      unfold jsonNormalize
      rw [hclen])]
    rfl
  · intro lab
    unfold normLabels
    rw [mem_firstDedup]
    simp [List.mem_flatMap]
  · intro u tg lv htgu hlastu hlvu
    exact expand_violation u tg lv htgu hlastu hlvu

/-- C4 counterexample: the index [7, 3, 2] is not dense, zero-based or
contiguous, yet its last label equals rowcount−1, so the guard passes and
the expansion succeeds — outer-aligning on the index union into a five-row
frame — instead of failing with the index-alignment error. -/
theorem expand_accepts_noncontiguous_index :
    (expand_parsed_address_dict exC4 "d").isOk = true
    ∧ (extractTable (expand_parsed_address_dict exC4 "d")).index = [0, 1, 2, 3, 7] := by
  decide

/-- Witness for C4 at a contiguous two-row table. -/
theorem expand_index_check_and_alignment_witness :
    expand_parsed_address_dict exC4w "d"
      = .ok ⟨exC4w.columns ++ normLabels (exC4w.rows.map fun r => r.getD 1 Value.null),
             exC4w.index,
             List.zipWith (· ++ ·) exC4w.rows
               (jsonNormalize (exC4w.rows.map fun r => r.getD 1 Value.null)).rows⟩ :=
  (expand_index_check_and_alignment exC4w "d"
    (exC4w.rows.map fun r => r.getD 1 Value.null) (by rfl) (by decide) (by decide)).1

theorem drop_duplicates_unique_keys (s u : Table) (onCols : List String)
    (h : drop_duplicates s onCols = .ok u) (k : List Value) :
    (u.rows.filter fun r => decide (rowKey u.columns onCols r = k)).length ≤ 1 := by
  unfold drop_duplicates at h
  by_cases hc : ∀ c ∈ onCols, c ∈ s.columns
  · rw [if_pos hc] at h
    injection h with h2
    subst h2
    dsimp only
    rw [dedupPairs_filter, if_neg (by simp)]
    cases ((s.index.zip s.rows).map Prod.snd).find?
        (fun r => decide (rowKey s.columns onCols r = k)) with
    | none => simp
    | some r => simp
  · rw [if_neg hc] at h
    exact absurd h (by simp)

/-- C2 (amended): in pipeline (a) each dataset's measure is aggregated and
then deduplicated keyed on (`standardised_address`, `Year`) — the
standardised, not the fuzzy-grouped deduped, address — leaving at most one
row per such key; the electricity and gas tables are then joined on
(`standardised_address`, `Year`) with `how="left"` and an `indicator`
provenance column, with NO cardinality validation: whenever the key
columns exist on both sides the join succeeds. -/
theorem m_and_r_pipeline_joins_on_standardised_address (mprn gprn : Table)
    (hL : ∀ c ∈ ["standardised_address", "Year"], c ∈ mprn.columns)
    (hR : ∀ c ∈ ["standardised_address", "Year"], c ∈ gprn.columns) :
    (m_and_r_raw mprn gprn).isOk = true
    ∧ "_merge" ∈ (extractTable (m_and_r_raw mprn gprn)).columns
    ∧ ∀ df u, mprn_deduped df = .ok u → ∀ k,
        (u.rows.filter fun r =>
            decide (rowKey u.columns ["standardised_address", "Year"] r = k)).length ≤ 1 := by
  have hmerge : m_and_r_raw mprn gprn
      = .ok ⟨mergeColumns mprn gprn ["standardised_address", "Year"] true,
             intRange (mergeRows mprn gprn ["standardised_address", "Year"]
               JoinMode.left true).length,
             mergeRows mprn gprn ["standardised_address", "Year"] JoinMode.left true⟩ := by
    unfold m_and_r_raw merge_mprn_and_gprn_on_common_addresses mergeTables
    rw [if_pos hL, if_pos hR]
  refine ⟨by rw [hmerge]; rfl, ?_, ?_⟩
  · rw [hmerge]
    show "_merge" ∈ mergeColumns mprn gprn ["standardised_address", "Year"] true
    unfold mergeColumns
    refine List.mem_append.mpr (Or.inr ?_)
    simp
  · intro df u h k
    unfold mprn_deduped at h
    cases hs : mprn_summated df with
    | error e =>
      rw [hs] at h
      exact absurd h (by simp [Except.bind])
    | ok s =>
      rw [hs] at h
      simp only [Except.bind] at h
      exact drop_duplicates_unique_keys s u ["standardised_address", "Year"] h k

/-- Witness for C2 at the concrete electricity/gas pair. -/
theorem m_and_r_pipeline_joins_on_standardised_address_witness :
    (m_and_r_raw exC2mprn exC2gprn).isOk = true :=
  (m_and_r_pipeline_joins_on_standardised_address exC2mprn exC2gprn
    (by decide) (by decide)).1

theorem valAt_of_colIndex {cols : List String} {c : String} {i : Nat}
    (h : colIndex cols c = some i) (row : List Value) :
    valAt cols row c = row.getD i Value.null := by
  unfold valAt
  rw [h]

theorem rowKey_append (cols rest onCols : List String) (row tail : List Value)
    (hsub : ∀ c ∈ onCols, c ∈ cols) (hlen : row.length = cols.length) :
    rowKey (cols ++ rest) onCols (row ++ tail) = rowKey cols onCols row := by
  unfold rowKey
  apply List.map_congr_left
  intro c hc
  obtain ⟨i, hi⟩ := colIndex_isSome_of_mem (hsub c hc)
  rw [valAt_of_colIndex (colIndex_append_of_some hi rest),
      getD_append_left (by rw [hlen]; exact colIndex_lt_length hi)]
  exact (valAt_of_colIndex hi row).symm

theorem rowKey_rightOnly (cols rest onCols rcols : List String)
    (rr tail : List Value) (hsub : ∀ c ∈ onCols, c ∈ cols) :
    rowKey (cols ++ rest) onCols
        ((cols.map fun c => if c ∈ onCols then valAt rcols rr c else Value.null) ++ tail)
      = rowKey rcols onCols rr := by
  unfold rowKey
  apply List.map_congr_left
  intro c hc
  obtain ⟨i, hi⟩ := colIndex_isSome_of_mem (hsub c hc)
  rw [valAt_of_colIndex (colIndex_append_of_some hi rest),
      getD_append_left (by rw [List.length_map]; exact colIndex_lt_length hi),
      getD_map_colIndex _ hi, if_pos hc]


/-- A block whose left row carries key `k` contributes one output row per
matching right row, and all of them carry key `k`. -/
theorem mergeBlock_count_pos (l r : Table) (onCols : List String) (how : JoinMode)
    (indicator : Bool) (k : List Value) (lr : List Value)
    (hkey : ∀ tail, rowKey (mergeColumns l r onCols indicator) onCols (lr ++ tail)
        = rowKey l.columns onCols lr)
    (hk : rowKey l.columns onCols lr = k)
    (hRne : (r.rows.filter fun rr => decide (rowKey r.columns onCols rr = k)).isEmpty
        = false) :
    ((mergeBlock l r onCols how indicator lr).filter fun row =>
        decide (rowKey (mergeColumns l r onCols indicator) onCols row = k)).length
      = (r.rows.filter fun rr => decide (rowKey r.columns onCols rr = k)).length := by
  simp only [mergeBlock, hk]
  rw [hRne]
  simp only [Bool.false_eq_true, if_false]
  have hfm : ((r.rows.filter fun rr => decide (rowKey r.columns onCols rr = k)).map
        fun rr => lr ++ projNonKey r.columns onCols rr
          ++ indicatorCell "both" indicator).filter
      (fun row => decide (rowKey (mergeColumns l r onCols indicator) onCols row = k))
      = (r.rows.filter fun rr => decide (rowKey r.columns onCols rr = k)).map
        fun rr => lr ++ projNonKey r.columns onCols rr
          ++ indicatorCell "both" indicator := by
    apply List.filter_eq_self.mpr
    intro row hrow
    obtain ⟨rr, _, rfl⟩ := List.mem_map.mp hrow
    simp only [List.append_assoc]
    rw [hkey _]
    exact decide_eq_true hk
  rw [hfm, List.length_map]

/-- A block whose left row carries a different key contributes no output
row with key `k`. -/
theorem mergeBlock_count_neg (l r : Table) (onCols : List String) (how : JoinMode)
    (indicator : Bool) (k : List Value) (lr : List Value)
    (hkey : ∀ tail, rowKey (mergeColumns l r onCols indicator) onCols (lr ++ tail)
        = rowKey l.columns onCols lr)
    (hk : ¬ rowKey l.columns onCols lr = k) :
    ((mergeBlock l r onCols how indicator lr).filter fun row =>
        decide (rowKey (mergeColumns l r onCols indicator) onCols row = k)).length
      = 0 := by
  rw [List.length_eq_zero, List.filter_eq_nil_iff]
  intro row hrow
  simp only [mergeBlock] at hrow
  by_cases hE : (r.rows.filter fun rr =>
      decide (rowKey r.columns onCols rr = rowKey l.columns onCols lr)).isEmpty = true
  · rw [if_pos hE] at hrow
    by_cases hI : how = JoinMode.inner
    · rw [if_pos hI] at hrow
      simp at hrow
    · rw [if_neg hI, List.mem_singleton] at hrow
      subst hrow
      simp only [List.append_assoc]
      rw [hkey _]
      simpa using hk
  · rw [if_neg hE] at hrow
    obtain ⟨rr, _, rfl⟩ := List.mem_map.mp hrow
    simp only [List.append_assoc]
    rw [hkey _]
    simpa using hk

/-- The outer-join right part carries no row of a key that the left side
also has. -/
theorem mergeRightPart_count_zero (l r : Table) (onCols : List String) (how : JoinMode)
    (indicator : Bool) (k : List Value)
    (hkeyR : ∀ (rr tail : List Value),
      rowKey (mergeColumns l r onCols indicator) onCols
          ((l.columns.map fun c => if c ∈ onCols then valAt r.columns rr c else Value.null)
            ++ tail)
        = rowKey r.columns onCols rr)
    (lr0 : List Value) (hlr0mem : lr0 ∈ l.rows)
    (hlr0key : rowKey l.columns onCols lr0 = k) :
    ((mergeRightPart l r onCols how indicator).filter fun row =>
        decide (rowKey (mergeColumns l r onCols indicator) onCols row = k)).length
      = 0 := by
  unfold mergeRightPart
  by_cases houter : how = JoinMode.outer
  · rw [if_pos houter, List.length_eq_zero, List.filter_eq_nil_iff]
    intro row hrow
    obtain ⟨rr, hrr, rfl⟩ := List.mem_map.mp hrow
    simp only [List.append_assoc]
    rw [hkeyR rr _]
    simp only [decide_eq_true_eq]
    intro hkeyrr
    have hall := (List.mem_filter.mp hrr).2
    have hone := List.all_eq_true.mp hall lr0 hlr0mem
    rw [decide_eq_true_eq] at hone
    exact hone (hlr0key.trans hkeyrr.symm)
  · rw [if_neg houter]
    rfl

/-- Counting the merge output rows of one key: for a key present on both
sides, the merge emits exactly one output row per matching (left, right)
pair, under every join mode. -/
theorem countKey_merge (l r : Table) (onCols : List String) (how : JoinMode)
    (indicator : Bool) (k : List Value)
    (hsubL : ∀ c ∈ onCols, c ∈ l.columns)
    (hwfL : ∀ row ∈ l.rows, row.length = l.columns.length)
    (hdisj : ∀ c ∈ l.columns, ¬ c ∈ (r.columns.filter fun c => decide (¬ c ∈ onCols)))
    (hkL : 0 < countKeyRows l.columns onCols l.rows k)
    (hkR : 0 < countKeyRows r.columns onCols r.rows k) :
    countKeyRows (mergeColumns l r onCols indicator) onCols
        (mergeRows l r onCols how indicator) k
      = countKeyRows l.columns onCols l.rows k
        * countKeyRows r.columns onCols r.rows k := by
  have hcols : mergeColumns l r onCols indicator
      = l.columns
        ++ (((r.columns.filter fun c => decide (¬ c ∈ onCols)).map
              fun c => if c ∈ l.columns then c ++ "_y" else c)
            ++ (if indicator then ["_merge"] else [])) := by
    simp only [mergeColumns]
    have hA : (l.columns.map fun c =>
        if c ∈ (r.columns.filter fun c => decide (¬ c ∈ onCols)) then c ++ "_x" else c)
        = l.columns := by
      conv_rhs => rw [← List.map_id l.columns]
      exact List.map_congr_left fun c hc => if_neg (hdisj c hc)
    rw [hA, List.append_assoc]
  have hkeyL : ∀ (lr : List Value), lr.length = l.columns.length → ∀ tail,
      rowKey (mergeColumns l r onCols indicator) onCols (lr ++ tail)
        = rowKey l.columns onCols lr := by
    intro lr hlen tail
    rw [hcols]
    exact rowKey_append _ _ _ _ _ hsubL hlen
  have hkeyR : ∀ (rr tail : List Value),
      rowKey (mergeColumns l r onCols indicator) onCols
          ((l.columns.map fun c => if c ∈ onCols then valAt r.columns rr c else Value.null)
            ++ tail)
        = rowKey r.columns onCols rr := by
    intro rr tail
    rw [hcols]
    exact rowKey_rightOnly _ _ _ _ _ _ hsubL
  obtain ⟨lr0, hlr0mem, hlr0key⟩ : ∃ lr ∈ l.rows, rowKey l.columns onCols lr = k := by
    have hne : l.rows.filter (fun row => decide (rowKey l.columns onCols row = k)) ≠ [] := by
      intro hnil
      rw [countKeyRows, hnil] at hkL
      simp at hkL
    obtain ⟨x, hx⟩ := List.exists_mem_of_ne_nil _ hne
    have hm := List.mem_filter.mp hx
    exact ⟨x, hm.1, of_decide_eq_true hm.2⟩
  have hRne : (r.rows.filter fun rr => decide (rowKey r.columns onCols rr = k)).isEmpty
      = false := by
    cases hql : r.rows.filter fun rr => decide (rowKey r.columns onCols rr = k) with
    | nil =>
      rw [countKeyRows, hql] at hkR
      simp at hkR
    | cons a as => rfl
  have hleft : ∀ rows : List (List Value),
      (∀ row ∈ rows, row.length = l.columns.length) →
      ((rows.flatMap (mergeBlock l r onCols how indicator)).filter fun row =>
          decide (rowKey (mergeColumns l r onCols indicator) onCols row = k)).length
      = (rows.filter fun row => decide (rowKey l.columns onCols row = k)).length
        * (r.rows.filter fun rr => decide (rowKey r.columns onCols rr = k)).length := by
    intro rows
    induction rows with
    | nil =>
      intro _
      simp
    | cons lr rows ih =>
      intro hwf
      have hlrlen : lr.length = l.columns.length := hwf lr (List.mem_cons_self _ _)
      rw [List.flatMap_cons, List.filter_append, List.length_append,
          ih (fun q hq => hwf q (List.mem_cons_of_mem _ hq)), List.filter_cons]
      by_cases hk : rowKey l.columns onCols lr = k
      · rw [if_pos (decide_eq_true hk),
            mergeBlock_count_pos l r onCols how indicator k lr (hkeyL lr hlrlen) hk hRne,
            List.length_cons, Nat.succ_mul]
        exact Nat.add_comm _ _
      · rw [if_neg (fun hd => hk (of_decide_eq_true hd)),
            mergeBlock_count_neg l r onCols how indicator k lr (hkeyL lr hlrlen) hk]
        omega
  unfold countKeyRows
  unfold mergeRows
  rw [List.filter_append, List.length_append, hleft l.rows hwfL,
      mergeRightPart_count_zero l r onCols how indicator k hkeyR lr0 hlr0mem hlr0key]
  omega

/-- C3: `_merge_on_common_postcodes` joins under a declared, validated
cardinality contract: when the actual key multiplicities violate the
declared cardinality, the join fails with the CardinalityViolation
(pandas MergeError) and produces no output; when they satisfy it, the
join succeeds and emits one output row per matching key pair — for every
key present on both sides, left-count times right-count rows. -/
theorem merge_validates_cardinality_contract (gas postcodes : Table)
    (onCols : List String) (how : JoinMode) (card : Cardinality)
    (hL : ∀ c ∈ onCols, c ∈ gas.columns) (hR : ∀ c ∈ onCols, c ∈ postcodes.columns)
    (hwfL : ∀ row ∈ gas.rows, row.length = gas.columns.length)
    (hdisj : ∀ c ∈ gas.columns,
      ¬ c ∈ (postcodes.columns.filter fun c => decide (¬ c ∈ onCols))) :
    (violatesCardinality gas postcodes onCols card = true →
      merge_on_common_postcodes gas postcodes onCols card how = .error .mergeError)
    ∧ (violatesCardinality gas postcodes onCols card = false →
      (merge_on_common_postcodes gas postcodes onCols card how).isOk = true
      ∧ ∀ k, 0 < countKeyRows gas.columns onCols gas.rows k →
            0 < countKeyRows postcodes.columns onCols postcodes.rows k →
        countKeyRows
            (extractTable (merge_on_common_postcodes gas postcodes onCols card how)).columns
            onCols
            (extractTable (merge_on_common_postcodes gas postcodes onCols card how)).rows k
          = countKeyRows gas.columns onCols gas.rows k
            * countKeyRows postcodes.columns onCols postcodes.rows k) := by
  constructor
  · intro hviol
    unfold merge_on_common_postcodes mergeTables
    rw [if_pos hL, if_pos hR]
    simp [hviol]
  · intro hok
    have hmerge : merge_on_common_postcodes gas postcodes onCols card how
        = .ok ⟨mergeColumns gas postcodes onCols false,
               intRange (mergeRows gas postcodes onCols how false).length,
               mergeRows gas postcodes onCols how false⟩ := by
      unfold merge_on_common_postcodes mergeTables
      rw [if_pos hL, if_pos hR]
      simp [hok]
    refine ⟨by rw [hmerge]; rfl, ?_⟩
    intro k hkl hkr
    rw [hmerge]
    exact countKey_merge gas postcodes onCols how false k hL hwfL hdisj hkl hkr

/-- Witness for C3: the spec's example — left keys A, B unique, right key
A twice — declared one_to_many: the join succeeds and key A gets 1*2 = 2
output rows. -/
theorem merge_validates_cardinality_contract_witness :
    (merge_on_common_postcodes exGas exPostcodes ["k"]
        Cardinality.one_to_many JoinMode.outer).isOk = true
    ∧ countKeyRows
        (extractTable (merge_on_common_postcodes exGas exPostcodes ["k"]
          Cardinality.one_to_many JoinMode.outer)).columns
        ["k"]
        (extractTable (merge_on_common_postcodes exGas exPostcodes ["k"]
          Cardinality.one_to_many JoinMode.outer)).rows
        [Value.str "A"]
      = 2 := by
  have h := (merge_validates_cardinality_contract exGas exPostcodes ["k"]
    JoinMode.outer Cardinality.one_to_many (by decide) (by decide) (by decide)
    (by decide)).2 (by decide)
  refine ⟨h.1, ?_⟩
  rw [h.2 [Value.str "A"] (by decide) (by decide)]
  decide

end Drem
